import Mathlib

/-!
# Verification of the sophys-cli-extensions EMA command-line layer

Shallow embedding of the line-rewriting input preprocessor
(`src/sophys/cli/extensions/ema/input_processor.py`), the run-engine
metadata-injection preprocessor (`run_engine.py`), the custom argparse
actions and plan-argument construction helpers (`plans.py`), and the
plan-submission failure handler (`__init__.py`).

Python strings are modelled as `List Char` (`PyStr`), so that
`str.strip`, `str.startswith`, `str.join` and `str.split` become
ordinary list functions amenable to induction.  Machine floats that
only ever pass through the code (`float(...)` results, `eval`ed
position lists) are modelled as rationals, with the parsing functions
themselves (`float`, `eval`) taken as parameters since they are python
builtins external to this repository.
-/

set_option linter.unusedVariables false

namespace SophysCli

/-- Python `str`, modelled as its list of characters. -/
abbrev PyStr := List Char

/-- Python `str.strip()`: remove leading and trailing whitespace. -/
def pstrip (s : PyStr) : PyStr :=
  ((s.dropWhile Char.isWhitespace).reverse.dropWhile Char.isWhitespace).reverse

/-- Python `sep.join(xs)`. -/
def pjoin (sep : PyStr) : List PyStr → PyStr
  | [] => []
  | [x] => x
  | x :: y :: xs => x ++ sep ++ pjoin sep (y :: xs)

/-- Python `s.split(c)` for a single-character separator
(`"".split(c) = [""]`, as in Python). -/
def psplit (c : Char) : PyStr → List PyStr
  | [] => [[]]
  | ch :: rest =>
    let r := psplit c rest
    if ch = c then [] :: r
    else
      match r with
      | [] => [[ch]]
      | x :: xs => (ch :: x) :: xs

/-! ## Data model of `input_processor.py`

`DataSource.get` (from `sophys.cli.core.data_source`, the abstract
key→string-set store backed by Redis or a CSV file) is modelled as a
record holding the five device-name lists the EMA processors read. -/

/-- The device-name lists served by `DataSource.get` for the `DataType`
keys `DETECTORS`, `BEFORE`, `DURING`, `AFTER` and `MAIN_DETECTOR`. -/
structure DataSource where
  detectors : List PyStr
  before : List PyStr
  during : List PyStr
  after : List PyStr
  main_detector : List PyStr

/-- The part of `PlanInformation` used by the input processor: the plan
user name, and `extra_props.get("has_detectors", True)`. -/
structure PlanInformation where
  user_name : PyStr
  has_detectors : Bool
  deriving DecidableEq

/-- Model of `add_detectors` (input_processor.py:9-17): insert a `-d ...`
directive into `line`, with detectors taken from `source`; skipped when
the plan marks `has_detectors` as `False`. -/
def add_detectors (line : PyStr) (source : DataSource)
    (plan_info : Option PlanInformation) : PyStr :=
  if (plan_info.map PlanInformation.has_detectors).getD true = false then line
  else pstrip line ++ " -d ".data ++ pjoin " ".data source.detectors

/-- The metadata string `md` built inside `add_metadata`
(input_processor.py:26-36): a `KEY=names ` block, with trailing space,
for each of the non-empty joined device lists. -/
def md_raw (source : DataSource) : PyStr :=
  (if (pjoin ",".data source.before).length ≠ 0 then
    "READ_BEFORE=".data ++ pjoin ",".data source.before ++ " ".data else [])
  ++ (if (pjoin ",".data source.during).length ≠ 0 then
    "READ_DURING=".data ++ pjoin ",".data source.during ++ " ".data else [])
  ++ (if (pjoin ",".data source.after).length ≠ 0 then
    "READ_AFTER=".data ++ pjoin ",".data source.after ++ " ".data else [])

/-- Model of `add_metadata` (input_processor.py:20-41): insert a
`--md ...` directive holding `md_raw`, stripped; leave the line alone
when all three lists are empty. -/
def add_metadata (line : PyStr) (source : DataSource) : PyStr :=
  if (md_raw source).length = 0 then line
  else pstrip line ++ " --md ".data ++ pstrip (md_raw source)

/-- The target chosen by `add_plan_target` (input_processor.py:49-56):
the `MAIN_DETECTOR` entry if configured, else the single selected
detector, else nothing. -/
def code_target (source : DataSource) : Option PyStr :=
  if source.main_detector.length = 0 then
    if source.detectors.length ≠ 1 then none
    else source.detectors.head?
  else source.main_detector.head?

/-- Model of `add_plan_target` (input_processor.py:44-57): insert a
`--plan_target` directive with the `MAIN_DETECTOR` target; when none is
configured, default to the single selected detector, and leave the line
alone when zero or several detectors are selected. -/
def add_plan_target (line : PyStr) (source : DataSource) : PyStr :=
  match code_target source with
  | none => line
  | some t =>
    pstrip line ++ " --plan_target ".data ++ pstrip t
      ++ " --md MAIN_COUNTER=".data ++ pstrip t

/-- The whitelist test of `input_processor.test_should_process`
(input_processor.py:64-71) for one line: the stripped line starts with
the plan user name followed by a space, optionally prefixed by `%`. -/
def line_matches_plan (info : PlanInformation) (line : PyStr) : Bool :=
  let l := pstrip line
  let needle := info.user_name ++ " ".data
  needle.isPrefixOf l || ("%".data ++ needle).isPrefixOf l

/-- Model of `test_should_process` (input_processor.py:64-71): the first
whitelist entry whose user name starts some input line. -/
def test_should_process (lines : List PyStr)
    (plan_whitelist : List PlanInformation) : Option PlanInformation :=
  plan_whitelist.find? (fun info => lines.any (line_matches_plan info))

/-- One line through the three processors, in the order they are
registered in `input_processor` (input_processor.py:78-88). -/
def process_line (source : DataSource) (info : PlanInformation)
    (line : PyStr) : PyStr :=
  add_plan_target (add_metadata (add_detectors line source (some info)) source) source

/-- Model of `input_processor` (input_processor.py:60-91): when some line starts
with a whitelisted plan invocation, run every line through the three
processors; otherwise return the lines unchanged. -/
def input_processor (lines : List PyStr)
    (plan_whitelist : List PlanInformation) (data_source : DataSource) :
    List PyStr :=
  match test_should_process lines plan_whitelist with
  | none => lines
  | some info => lines.map (process_line data_source info)

/-! ## Whitespace bookkeeping

The processors call `str.strip()` at every stage; to relate their
output to a plain concatenation we track strings whose two ends carry
no whitespace. -/

/-- Both ends of `s` are free of whitespace (vacuously true for `[]`). -/
def NoWsEdges (s : PyStr) : Prop :=
  s.dropWhile Char.isWhitespace = s ∧
  s.reverse.dropWhile Char.isWhitespace = s.reverse

/-- A well-formed device name: non-empty, no whitespace anywhere. -/
def CleanStr (s : PyStr) : Prop :=
  s ≠ [] ∧ ∀ c ∈ s, c.isWhitespace = false

theorem pstrip_eq_self {s : PyStr} (h : NoWsEdges s) : pstrip s = s := by
  unfold pstrip
  rw [h.1, h.2, List.reverse_reverse]

theorem dropWhile_fix_append {p : Char → Bool} {a : PyStr} (b : PyStr)
    (ha : a ≠ []) (h : a.dropWhile p = a) : (a ++ b).dropWhile p = a ++ b := by
  cases a with
  | nil => exact absurd rfl ha
  | cons c t =>
    have hpc : ¬p c = true := by
      have := List.dropWhile_eq_self_iff.mp h (by simp)
      simpa using this
    simp [List.dropWhile_cons, hpc]

theorem noWsEdges_of_clean {s : PyStr} (h : ∀ c ∈ s, c.isWhitespace = false) :
    NoWsEdges s := by
  constructor
  · cases s with
    | nil => rfl
    | cons c t => simp [List.dropWhile_cons, h c (by simp)]
  · cases hs : s.reverse with
    | nil => simp
    | cons c t =>
      have hc : c ∈ s := by
        rw [← List.mem_reverse, hs]; simp
      simp [List.dropWhile_cons, h c hc]

theorem cleanStr_noWsEdges {s : PyStr} (h : CleanStr s) :
    NoWsEdges s ∧ s ≠ [] :=
  ⟨noWsEdges_of_clean h.2, h.1⟩

/-- Edge-cleanliness of a sandwich `a ++ m ++ b`: only the outer ends
matter. -/
theorem noWsEdges_append {a b : PyStr} (m : PyStr)
    (ha : NoWsEdges a) (hb : NoWsEdges b) (ha' : a ≠ []) (hb' : b ≠ []) :
    NoWsEdges (a ++ m ++ b) := by
  constructor
  · rw [List.append_assoc]
    exact dropWhile_fix_append _ ha' ha.1
  · rw [List.append_assoc, List.reverse_append, List.reverse_append,
      List.append_assoc]
    exact dropWhile_fix_append _ (by simpa using hb') hb.2

theorem noWsEdges_append₂ {a b : PyStr}
    (ha : NoWsEdges a) (hb : NoWsEdges b) (ha' : a ≠ []) (hb' : b ≠ []) :
    NoWsEdges (a ++ b) := by
  have := noWsEdges_append [] ha hb ha' hb'
  simpa using this

/-- Joining non-empty edge-clean strings yields an edge-clean,
non-empty string (any separator). -/
theorem pjoin_edges (sep : PyStr) :
    ∀ (xs : List PyStr), xs ≠ [] → (∀ s ∈ xs, NoWsEdges s ∧ s ≠ []) →
      NoWsEdges (pjoin sep xs) ∧ pjoin sep xs ≠ []
  | [], hne, _ => absurd rfl hne
  | [x], _, h => by
    simpa [pjoin] using h x (by simp)
  | x :: y :: xs, _, h => by
    have hx := h x (by simp)
    have ih := pjoin_edges sep (y :: xs) (by simp)
      (fun s hs => h s (List.mem_cons_of_mem x hs))
    rw [pjoin]
    refine ⟨noWsEdges_append sep hx.1 ih.1 hx.2 ih.2, ?_⟩
    intro hcontra
    exact hx.2 (List.append_eq_nil.mp (List.append_eq_nil.mp hcontra).1).1

theorem pjoin_clean (sep : PyStr) (xs : List PyStr) (hne : xs ≠ [])
    (h : ∀ s ∈ xs, CleanStr s) :
    NoWsEdges (pjoin sep xs) ∧ pjoin sep xs ≠ [] :=
  pjoin_edges sep xs hne (fun s hs => cleanStr_noWsEdges (h s hs))

/-- Stripping a string with one trailing space recovers the string. -/
theorem pstrip_append_space {s : PyStr} (h : NoWsEdges s) (hs : s ≠ []) :
    pstrip (s ++ " ".data) = s := by
  unfold pstrip
  rw [dropWhile_fix_append _ hs h.1]
  have : (s ++ " ".data).reverse = ' ' :: s.reverse := by
    simp [String.data]
  have hws : Char.isWhitespace ' ' = true := by decide
  rw [this, List.dropWhile_cons, if_pos hws, h.2, List.reverse_reverse]

end SophysCli

namespace SophysCli

/-! ## The claimed shape of a rewritten line

`rewritten_line_claim` is written from the specification's words, to be
compared with the composition of the three processors: the line with a
`-d` directive (omitted when the plan's `has_detectors` is `False`),
an `--md` directive holding `READ_BEFORE= / READ_DURING= / READ_AFTER=`
entries for exactly the non-empty device lists (omitted when all three
are empty), and `--plan_target t --md MAIN_COUNTER=t` for the selected
main target. -/

/-- The main target selected by the claim's wording: the configured
main detector, else the single selected detector, else nothing. -/
def claim_target (source : DataSource) : Option PyStr :=
  match source.main_detector with
  | t :: _ => some t
  | [] =>
    match source.detectors with
    | [t] => some t
    | _ => none

/-- The `--md` entries the claim describes, for the non-empty lists. -/
def md_entries (source : DataSource) : List PyStr :=
  (if source.before ≠ [] then ["READ_BEFORE=".data ++ pjoin ",".data source.before] else [])
  ++ (if source.during ≠ [] then ["READ_DURING=".data ++ pjoin ",".data source.during] else [])
  ++ (if source.after ≠ [] then ["READ_AFTER=".data ++ pjoin ",".data source.after] else [])

/-- The `--md` directive text appended by the claim (empty when there
are no entries). -/
def md_part (source : DataSource) : PyStr :=
  if md_entries source = [] then []
  else " --md ".data ++ pjoin " ".data (md_entries source)

/-- The `-d` directive text appended by the claim. -/
def d_part (info : PlanInformation) (source : DataSource) : PyStr :=
  if info.has_detectors then " -d ".data ++ pjoin " ".data source.detectors else []

/-- The `--plan_target` directive text appended by the claim. -/
def target_part (source : DataSource) : PyStr :=
  match claim_target source with
  | none => []
  | some t => " --plan_target ".data ++ t ++ " --md MAIN_COUNTER=".data ++ t

/-- The claim's description of a processed line, assembled from the
specification's words. -/
def rewritten_line_claim (line : PyStr) (info : PlanInformation)
    (source : DataSource) : PyStr :=
  line ++ d_part info source ++ md_part source ++ target_part source

/-- Well-formed data source: every stored device name is non-empty and
whitespace-free. -/
def CleanSource (source : DataSource) : Prop :=
  (∀ d ∈ source.detectors, CleanStr d) ∧ (∀ d ∈ source.before, CleanStr d) ∧
  (∀ d ∈ source.during, CleanStr d) ∧ (∀ d ∈ source.after, CleanStr d) ∧
  (∀ d ∈ source.main_detector, CleanStr d)

instance (s : PyStr) : Decidable (NoWsEdges s) := by
  unfold NoWsEdges
  exact inferInstance

instance (s : PyStr) : Decidable (CleanStr s) := by
  unfold CleanStr
  exact inferInstance

instance (source : DataSource) : Decidable (CleanSource source) := by
  unfold CleanSource
  exact inferInstance

/-! ## Stage lemmas -/

theorem add_detectors_clean (line : PyStr) (info : PlanInformation)
    (source : DataSource) (hl : NoWsEdges line) (hl' : line ≠ [])
    (hdet : source.detectors ≠ [])
    (hclean : ∀ d ∈ source.detectors, CleanStr d) :
    add_detectors line source (some info) = line ++ d_part info source
    ∧ NoWsEdges (add_detectors line source (some info))
    ∧ add_detectors line source (some info) ≠ [] := by
  have hp := pjoin_clean " ".data source.detectors hdet hclean
  by_cases hhd : info.has_detectors = true
  · have e0 : add_detectors line source (some info)
        = pstrip line ++ " -d ".data ++ pjoin " ".data source.detectors := by
      unfold add_detectors
      exact if_neg (by simp [hhd])
    have e1 : add_detectors line source (some info)
        = line ++ (" -d ".data ++ pjoin " ".data source.detectors) := by
      rw [e0, pstrip_eq_self hl, List.append_assoc]
    have e2 : d_part info source
        = " -d ".data ++ pjoin " ".data source.detectors := by
      unfold d_part
      rw [if_pos hhd]
    refine ⟨by rw [e1, e2], ?_, ?_⟩
    · rw [e1, ← List.append_assoc]
      exact noWsEdges_append " -d ".data hl hp.1 hl' hp.2
    · rw [e1]
      simp [hl']
  · have hhd' : info.has_detectors = false := by simpa using hhd
    have e1 : add_detectors line source (some info) = line := by
      unfold add_detectors
      exact if_pos (by simp [hhd'])
    have e2 : d_part info source = [] := by
      unfold d_part
      rw [if_neg (by simp [hhd'])]
    rw [e1, e2]
    exact ⟨by simp, hl, hl'⟩

theorem pjoin_length_ne_zero_iff (sep : PyStr) (xs : List PyStr)
    (hc : ∀ s ∈ xs, CleanStr s) : (pjoin sep xs).length ≠ 0 ↔ xs ≠ [] := by
  constructor
  · intro h hx
    subst hx
    simp [pjoin] at h
  · intro hx
    have := (pjoin_clean sep xs hx hc).2
    simpa [List.length_eq_zero] using this

theorem join_map_trailing :
    ∀ (E : List PyStr), E ≠ [] →
      (E.map (· ++ " ".data)).flatten = pjoin " ".data E ++ " ".data
  | [], h => absurd rfl h
  | [x], _ => by simp [pjoin]
  | x :: y :: E, _ => by
    have ih := join_map_trailing (y :: E) (by simp)
    simp only [List.map_cons, List.flatten_cons] at ih ⊢
    rw [ih, pjoin]
    simp [List.append_assoc]

theorem md_entries_clean (source : DataSource)
    (hb : ∀ d ∈ source.before, CleanStr d)
    (hd : ∀ d ∈ source.during, CleanStr d)
    (ha : ∀ d ∈ source.after, CleanStr d) :
    ∀ e ∈ md_entries source, NoWsEdges e ∧ e ≠ [] := by
  intro e he
  unfold md_entries at he
  have key : ∀ (k : PyStr) (xs : List PyStr), CleanStr k → xs ≠ [] →
      (∀ s ∈ xs, CleanStr s) →
      NoWsEdges (k ++ pjoin ",".data xs) ∧ k ++ pjoin ",".data xs ≠ [] := by
    intro k xs hk hxs hcs
    have hkk := cleanStr_noWsEdges hk
    have hj := pjoin_clean ",".data xs hxs hcs
    exact ⟨noWsEdges_append₂ hkk.1 hj.1 hkk.2 hj.2, by simp [hkk.2]⟩
  simp only [List.mem_append] at he
  rcases he with (he | he) | he
  · by_cases hB : source.before = []
    · simp [hB] at he
    · rw [if_pos hB] at he
      simp only [List.mem_singleton] at he
      subst he
      exact key _ _ (by constructor <;> decide) hB hb
  · by_cases hD : source.during = []
    · simp [hD] at he
    · rw [if_pos hD] at he
      simp only [List.mem_singleton] at he
      subst he
      exact key _ _ (by constructor <;> decide) hD hd
  · by_cases hA : source.after = []
    · simp [hA] at he
    · rw [if_pos hA] at he
      simp only [List.mem_singleton] at he
      subst he
      exact key _ _ (by constructor <;> decide) hA ha

/-- The raw metadata string built inside `add_metadata` is exactly the
claimed entries, each with a trailing space. -/
theorem md_raw_eq_entries (source : DataSource)
    (hb : ∀ d ∈ source.before, CleanStr d)
    (hd : ∀ d ∈ source.during, CleanStr d)
    (ha : ∀ d ∈ source.after, CleanStr d) :
    md_raw source = ((md_entries source).map (· ++ " ".data)).flatten := by
  unfold md_raw md_entries
  rw [if_congr (pjoin_length_ne_zero_iff ",".data source.before hb) rfl rfl,
    if_congr (pjoin_length_ne_zero_iff ",".data source.during hd) rfl rfl,
    if_congr (pjoin_length_ne_zero_iff ",".data source.after ha) rfl rfl]
  by_cases hB : source.before = [] <;> by_cases hD : source.during = [] <;>
    by_cases hA : source.after = [] <;>
    simp [hB, hD, hA, List.append_assoc]

theorem add_metadata_clean (line : PyStr) (source : DataSource)
    (hl : NoWsEdges line) (hl' : line ≠ [])
    (hb : ∀ d ∈ source.before, CleanStr d)
    (hd : ∀ d ∈ source.during, CleanStr d)
    (ha : ∀ d ∈ source.after, CleanStr d) :
    add_metadata line source = line ++ md_part source
    ∧ NoWsEdges (add_metadata line source) ∧ add_metadata line source ≠ [] := by
  have hraw := md_raw_eq_entries source hb hd ha
  unfold add_metadata md_part
  rw [hraw]
  by_cases hE : md_entries source = []
  · rw [hE]
    simp [hl, hl']
  · have hEc := md_entries_clean source hb hd ha
    have hJ := pjoin_edges " ".data (md_entries source) hE hEc
    have hne : pjoin " ".data (md_entries source) ++ " ".data ≠ [] := by
      intro hcontra
      exact hJ.2 (List.append_eq_nil.mp hcontra).1
    rw [join_map_trailing (md_entries source) hE, if_neg hE]
    rw [if_neg (by simpa [List.length_eq_zero] using hne)]
    rw [pstrip_eq_self hl, pstrip_append_space hJ.1 hJ.2]
    refine ⟨by simp [List.append_assoc], ?_, by simp [hl']⟩
    exact noWsEdges_append " --md ".data hl hJ.1 hl' hJ.2

theorem code_target_eq_claim (source : DataSource) :
    code_target source = claim_target source := by
  unfold code_target claim_target
  cases hm : source.main_detector with
  | cons t rest => rfl
  | nil =>
    cases hdets : source.detectors with
    | nil => rfl
    | cons d rest =>
      cases rest with
      | nil => rfl
      | cons d' rest' => rfl

theorem claim_target_clean {source : DataSource} {t : PyStr}
    (hct : claim_target source = some t)
    (hdet : ∀ d ∈ source.detectors, CleanStr d)
    (hmain : ∀ d ∈ source.main_detector, CleanStr d) : CleanStr t := by
  unfold claim_target at hct
  cases hm : source.main_detector with
  | cons a l =>
    rw [hm] at hct
    simp only [Option.some.injEq] at hct
    subst hct
    exact hmain a (by rw [hm]; simp)
  | nil =>
    rw [hm] at hct
    cases hdets : source.detectors with
    | nil => rw [hdets] at hct; simp at hct
    | cons d rest =>
      cases rest with
      | cons d' rest' => rw [hdets] at hct; simp at hct
      | nil =>
        rw [hdets] at hct
        simp only [Option.some.injEq] at hct
        subst hct
        exact hdet d (by rw [hdets]; simp)

theorem add_plan_target_clean (line : PyStr) (source : DataSource)
    (hl : NoWsEdges line) (hl' : line ≠ [])
    (hdet : ∀ d ∈ source.detectors, CleanStr d)
    (hmain : ∀ d ∈ source.main_detector, CleanStr d) :
    add_plan_target line source = line ++ target_part source := by
  unfold add_plan_target target_part
  rw [code_target_eq_claim]
  cases hct : claim_target source with
  | none => simp
  | some t =>
    have ht := claim_target_clean hct hdet hmain
    simp only
    rw [pstrip_eq_self hl, pstrip_eq_self (cleanStr_noWsEdges ht).1]
    simp [List.append_assoc]

/-- Composing the three processors on a clean line gives exactly the
claimed rewritten line. -/
theorem process_line_eq_claim (line : PyStr) (info : PlanInformation)
    (source : DataSource) (hl : NoWsEdges line) (hl' : line ≠ [])
    (hdet : source.detectors ≠ []) (hcs : CleanSource source) :
    process_line source info line = rewritten_line_claim line info source := by
  obtain ⟨h1, h2, h3, h4, h5⟩ := hcs
  have s1 := add_detectors_clean line info source hl hl' hdet h1
  have s2 := add_metadata_clean _ source s1.2.1 s1.2.2 h2 h3 h4
  have s3 := add_plan_target_clean _ source s2.2.1 s2.2.2 h1 h5
  unfold process_line rewritten_line_claim
  rw [s3, s2.1, s1.1]

end SophysCli

namespace SophysCli

/-! ## Claims about `input_processor` -/

theorem input_processor_of_found {lines : List PyStr}
    {wl : List PlanInformation} {info : PlanInformation} (ds : DataSource)
    (h : test_should_process lines wl = some info) :
    input_processor lines wl ds = lines.map (process_line ds info) := by
  unfold input_processor
  rw [h]

theorem input_processor_of_not_found {lines : List PyStr}
    {wl : List PlanInformation} (ds : DataSource)
    (h : test_should_process lines wl = none) :
    input_processor lines wl ds = lines := by
  unfold input_processor
  rw [h]

/-- C1 (amended).  When some line of the batch invokes a whitelisted
plan, let `info` be the first whitelist entry matching any line
(`test_should_process`).  Every line beginning with that plan's user
name (optionally `%`-prefixed) is returned with the directives appended
in this order: a `-d` directive listing the data source's detectors
(omitted when `info`'s `has_detectors` is `False`), an `--md` directive
containing `READ_BEFORE=`, `READ_DURING=` and `READ_AFTER=` entries for
exactly the non-empty before/during/after lists (omitted when all three
are empty), and `--plan_target t --md MAIN_COUNTER=t` for the selected
main target when one is determined.  Device names and the line are
assumed free of surrounding whitespace. -/
theorem input_processor_rewrites_matching_line
    (lines : List PyStr) (wl : List PlanInformation) (source : DataSource)
    (info : PlanInformation) (i : ℕ) (line : PyStr)
    (hfound : test_should_process lines wl = some info)
    (hline : lines[i]? = some line)
    (hmatch : line_matches_plan info line = true)
    (hl : NoWsEdges line) (hl' : line ≠ [])
    (hdet : source.detectors ≠ []) (hcs : CleanSource source) :
    (input_processor lines wl source)[i]?
      = some (rewritten_line_claim line info source) := by
  rw [input_processor_of_found source hfound]
  rw [List.getElem?_map, hline, Option.map_some']
  rw [process_line_eq_claim line info source hl hl' hdet hcs]

/-- Witness for C1's amended theorem at a concrete input. -/
theorem input_processor_rewrites_matching_line_witness :
    (input_processor ["count 1".data] [⟨"count".data, true⟩]
        ⟨["d0".data, "d1".data], ["b0".data], [], ["a0".data], ["m0".data]⟩)[0]?
      = some (rewritten_line_claim "count 1".data ⟨"count".data, true⟩
          ⟨["d0".data, "d1".data], ["b0".data], [], ["a0".data], ["m0".data]⟩) :=
  input_processor_rewrites_matching_line _ _ _ _ 0 _
    (by decide) (by decide) (by decide) (by decide) (by decide) (by decide)
    (by decide)

/-- C1 (counterexample).  The claim reads the `has_detectors` mark off
the plan the line itself begins with, but the code applies the first
whitelist entry matching any line of the batch: with the `mov` plan
(`has_detectors=False`) matched by the second line, the `count` line
is rewritten without its claimed `-d` directive. -/
theorem input_processor_claim_cex :
    line_matches_plan ⟨"count".data, true⟩ "count 1".data = true
    ∧ (⟨"count".data, true⟩ : PlanInformation)
        ∈ [(⟨"mov".data, false⟩ : PlanInformation), ⟨"count".data, true⟩]
    ∧ (input_processor ["count 1".data, "mov x 1".data]
          [⟨"mov".data, false⟩, ⟨"count".data, true⟩]
          ⟨["d0".data], [], [], [], []⟩)[0]?
        ≠ some (rewritten_line_claim "count 1".data ⟨"count".data, true⟩
            ⟨["d0".data], [], [], [], []⟩) := by
  decide

/-- C2 (counterexample).  `input_processor` is not idempotent: on a
batch whose line matches the whitelist, a second application appends
the directives a second time. -/
theorem input_processor_not_idempotent :
    input_processor
        (input_processor ["count 1".data] [⟨"count".data, true⟩]
          ⟨["d0".data], [], [], [], []⟩)
        [⟨"count".data, true⟩] ⟨["d0".data], [], [], [], []⟩
      ≠ input_processor ["count 1".data] [⟨"count".data, true⟩]
          ⟨["d0".data], [], [], [], []⟩ := by
  decide

/-- C2 (amended).  `input_processor` is idempotent on every batch in
which no line invokes a whitelisted plan (it returns such batches
unchanged); it is not idempotent in general: on a matching batch a
second application can append the directives again, as in the
counterexample. -/
theorem input_processor_idempotent_of_no_match
    (lines : List PyStr) (wl : List PlanInformation) (ds : DataSource)
    (h : test_should_process lines wl = none) :
    input_processor (input_processor lines wl ds) wl ds
      = input_processor lines wl ds := by
  have h1 := input_processor_of_not_found ds h
  rw [h1]
  exact h1

/-- Witness for C2's amended theorem at a concrete input. -/
theorem input_processor_idempotent_of_no_match_witness :
    input_processor
        (input_processor ["hello".data] [⟨"count".data, true⟩]
          ⟨["d0".data], [], [], [], []⟩)
        [⟨"count".data, true⟩] ⟨["d0".data], [], [], [], []⟩
      = input_processor ["hello".data] [⟨"count".data, true⟩]
          ⟨["d0".data], [], [], [], []⟩ :=
  input_processor_idempotent_of_no_match _ _ _ (by decide)

/-- C4 (amended).  `input_processor` acts pointwise: when no line of
the batch invokes a whitelisted plan every line is returned unchanged,
and when some line does, every line of the batch — matching or not —
is run through the three directive processors. -/
theorem input_processor_pointwise
    (lines : List PyStr) (wl : List PlanInformation) (ds : DataSource)
    (i : ℕ) (line : PyStr) (hline : lines[i]? = some line) :
    (input_processor lines wl ds)[i]?
      = some (match test_should_process lines wl with
          | none => line
          | some info => process_line ds info line) := by
  cases h : test_should_process lines wl with
  | none =>
    rw [input_processor_of_not_found ds h]
    exact hline
  | some info =>
    rw [input_processor_of_found ds h]
    rw [List.getElem?_map, hline, Option.map_some']

/-- Witness for C4's amended theorem at a concrete input. -/
theorem input_processor_pointwise_witness :
    (input_processor ["count 1".data, "hello".data] [⟨"count".data, true⟩]
        ⟨["d0".data], [], [], [], []⟩)[1]?
      = some (match test_should_process ["count 1".data, "hello".data]
            [(⟨"count".data, true⟩ : PlanInformation)] with
          | none => "hello".data
          | some info => process_line ⟨["d0".data], [], [], [], []⟩ info "hello".data) :=
  input_processor_pointwise _ _ _ 1 _ (by decide)

/-- C4 (counterexample).  A line that does not itself invoke any
whitelisted plan is still rewritten when another line of the batch
does: `"hello"` matches no plan, yet gains the directives. -/
theorem input_processor_frame_cex :
    (∀ info ∈ [(⟨"count".data, true⟩ : PlanInformation)],
      line_matches_plan info "hello".data = false)
    ∧ (input_processor ["count 1".data, "hello".data]
          [⟨"count".data, true⟩] ⟨["d0".data], [], [], [], []⟩)[1]?
        ≠ some "hello".data := by
  decide

end SophysCli

namespace SophysCli

/-! ## The run-engine metadata-insertion preprocessor (`run_engine.py`)

`create_metadata_inserter_preprocessor` closes over a list
`_kwargs_for_runs` used as a stack, and returns a `plan_mutator`
message processor.  We model the processor as a step function from the
stack and one message to the new stack and the messages emitted in its
place (for `plan_mutator`, `(None, gen)` on `open_run` means the
message itself followed by the generated reads, and `(gen, None)` on
`close_run` means the generated reads followed by the message, which
`__after_plan` re-yields).  Device lookup
(`get_device_by_name`, from `sophys.common`) is a parameter
`registry : PyStr → Bool` telling whether a device name resolves;
`bps.create/read/save/drop` messages are represented by their command
and object.  A `close_run` on an empty stack is Python's `list.pop`
`IndexError`, modelled as `none`. -/

/-- Python kwargs dict, as an association list. -/
abbrev Kwargs := List (PyStr × PyStr)

/-- Python `kwargs.get(key, "")`. -/
def kwget (kwargs : Kwargs) (key : PyStr) : PyStr :=
  match kwargs.find? (fun p => decide (p.1 = key)) with
  | some p => p.2
  | none => []

/-- A bluesky `Msg`, restricted to the fields the preprocessor reads:
the command, the object a `read`/`create` refers to, and the kwargs. -/
structure Msg where
  command : PyStr
  obj : Option PyStr
  kwargs : Kwargs
  deriving DecidableEq

/-- An `open_run` message carrying `kwargs`. -/
def openMsg (kwargs : Kwargs) : Msg := ⟨"open_run".data, none, kwargs⟩

/-- A `close_run` message. -/
def closeMsg : Msg := ⟨"close_run".data, none, []⟩

/-- Model of `__read_plan` (run_engine.py:53-71): `create` the stream,
`read` each device that resolves in the registry (failures are logged
and skipped), then `save` if anything was read, else `drop`. -/
def read_plan (registry : PyStr → Bool) (device_name_list : List PyStr)
    (metadata_stream_name : PyStr) : List Msg :=
  let found := device_name_list.filter registry
  Msg.mk "create".data (some metadata_stream_name) []
    :: found.map (fun d => Msg.mk "read".data (some d) [])
    ++ [if found.isEmpty then Msg.mk "drop".data none []
        else Msg.mk "save".data none []]

/-- Model of `__before_plan` (run_engine.py:73-77): read the
`READ_BEFORE` devices when that entry is non-empty. -/
def before_plan (registry : PyStr → Bool) (kwargs : Kwargs)
    (before_stream : PyStr) : List Msg :=
  if (kwget kwargs "READ_BEFORE".data).length ≠ 0 then
    read_plan registry (psplit ',' (kwget kwargs "READ_BEFORE".data)) before_stream
  else []

/-- Model of `__after_plan` (run_engine.py:79-86): read the
`READ_AFTER` devices when that entry is non-empty, then re-yield the
(unmutated) `close_run` message. -/
def after_plan (registry : PyStr → Bool) (kwargs : Kwargs) (msg : Msg)
    (after_stream : PyStr) : List Msg :=
  (if (kwget kwargs "READ_AFTER".data).length ≠ 0 then
    read_plan registry (psplit ',' (kwget kwargs "READ_AFTER".data)) after_stream
  else []) ++ [msg]

/-- Model of `metadata_inserter_preprocessor` (run_engine.py:50-104) as
a step on the `_kwargs_for_runs` stack: `open_run` pushes its kwargs
and is followed by the before-plan reads; `close_run` pops the most
recently pushed kwargs and is preceded by the after-plan reads; any
other message passes through untouched.  `none` is the `IndexError` of
popping an empty stack. -/
def msg_proc_step (registry : PyStr → Bool) (bstream astream : PyStr)
    (stack : List Kwargs) (msg : Msg) : Option (List Kwargs × List Msg) :=
  if msg.command = "open_run".data then
    some (stack ++ [msg.kwargs], msg :: before_plan registry msg.kwargs bstream)
  else if msg.command = "close_run".data then
    match stack.getLast? with
    | none => none
    | some kw => some (stack.dropLast, after_plan registry kw msg astream)
  else some (stack, [msg])

/-- Run the preprocessor over a message stream, threading the stack and
concatenating the emitted messages. -/
def process_msgs (registry : PyStr → Bool) (bstream astream : PyStr)
    (stack : List Kwargs) : List Msg → Option (List Kwargs × List Msg)
  | [] => some (stack, [])
  | m :: ms =>
    (msg_proc_step registry bstream astream stack m).bind (fun so =>
      (process_msgs registry bstream astream so.1 ms).map (fun so2 =>
        (so2.1, so.2 ++ so2.2)))

/-- The messages a balanced stream emits (its output is independent of
the surrounding stack). -/
def outBody (registry : PyStr → Bool) (bstream astream : PyStr)
    (ms : List Msg) : List Msg :=
  match process_msgs registry bstream astream [] ms with
  | some (_, o) => o
  | none => []

/-- Message streams in which runs are strictly nested: plain messages,
and `open_run … close_run` blocks with balanced interiors. -/
inductive Balanced : List Msg → Prop where
  | nil : Balanced []
  | plain {m : Msg} {rest : List Msg} :
      m.command ≠ "open_run".data → m.command ≠ "close_run".data →
      Balanced rest → Balanced (m :: rest)
  | nest {kwargs : Kwargs} {inner rest : List Msg} :
      Balanced inner → Balanced rest →
      Balanced (openMsg kwargs :: inner ++ closeMsg :: rest)

theorem outBody_of {registry : PyStr → Bool} {bstream astream : PyStr}
    {ms : List Msg} {o : List Msg}
    (h : process_msgs registry bstream astream [] ms = some ([], o)) :
    outBody registry bstream astream ms = o := by
  unfold outBody
  rw [h]

theorem process_msgs_append (registry : PyStr → Bool) (bstream astream : PyStr) :
    ∀ (a b : List Msg) (stack : List Kwargs),
      process_msgs registry bstream astream stack (a ++ b)
        = (process_msgs registry bstream astream stack a).bind (fun so =>
            (process_msgs registry bstream astream so.1 b).map (fun so2 =>
              (so2.1, so.2 ++ so2.2)))
  | [], b, stack => by
    cases h : process_msgs registry bstream astream stack b with
    | none => simp [process_msgs, h]
    | some p => simp [process_msgs, h]
  | m :: a, b, stack => by
    show process_msgs registry bstream astream stack (m :: (a ++ b)) = _
    cases hstep : msg_proc_step registry bstream astream stack m with
    | none => simp [process_msgs, hstep]
    | some so =>
      have ih := process_msgs_append registry bstream astream a b so.1
      cases ha : process_msgs registry bstream astream so.1 a with
      | none => simp [process_msgs, hstep, ih, ha]
      | some q =>
        cases hb : process_msgs registry bstream astream q.1 b with
        | none => simp [process_msgs, hstep, ih, ha, hb]
        | some r => simp [process_msgs, hstep, ih, ha, hb]

theorem plain_step (registry : PyStr → Bool) (bstream astream : PyStr)
    {m : Msg} (hm1 : m.command ≠ "open_run".data)
    (hm2 : m.command ≠ "close_run".data) (stack : List Kwargs) :
    msg_proc_step registry bstream astream stack m = some (stack, [m]) := by
  unfold msg_proc_step
  rw [if_neg hm1, if_neg hm2]

theorem open_step (registry : PyStr → Bool) (bstream astream : PyStr)
    {m : Msg} (hm : m.command = "open_run".data) (stack : List Kwargs) :
    msg_proc_step registry bstream astream stack m
      = some (stack ++ [m.kwargs], m :: before_plan registry m.kwargs bstream) := by
  unfold msg_proc_step
  rw [if_pos hm]

theorem close_step (registry : PyStr → Bool) (bstream astream : PyStr)
    {m : Msg} (hm : m.command = "close_run".data) (stack : List Kwargs)
    (kw : Kwargs) :
    msg_proc_step registry bstream astream (stack ++ [kw]) m
      = some (stack, after_plan registry kw m astream) := by
  unfold msg_proc_step
  rw [if_neg (by rw [hm]; decide), if_pos hm]
  rw [List.getLast?_concat, List.dropLast_concat]

/-- Processing one `open_run … close_run` block: the open message and
its before-reads, the interior's output, then the after-reads built
from the very kwargs the open pushed, and the rest. -/
theorem process_nest_aux (registry : PyStr → Bool) (bstream astream : PyStr)
    (kw : Kwargs) {inner rest : List Msg}
    (ihinner : ∀ stack, process_msgs registry bstream astream stack inner
      = some (stack, outBody registry bstream astream inner))
    (ihrest : ∀ stack, process_msgs registry bstream astream stack rest
      = some (stack, outBody registry bstream astream rest)) :
    ∀ stack, process_msgs registry bstream astream stack
        (openMsg kw :: inner ++ closeMsg :: rest)
      = some (stack, (openMsg kw :: before_plan registry kw bstream)
          ++ (outBody registry bstream astream inner
            ++ (after_plan registry kw closeMsg astream
              ++ outBody registry bstream astream rest))) := by
  have hopen : (openMsg kw).command = "open_run".data := rfl
  have hclose : closeMsg.command = "close_run".data := rfl
  intro stack
  simp only [process_msgs, open_step registry bstream astream hopen,
    Option.some_bind, process_msgs_append registry bstream astream,
    ihinner, close_step registry bstream astream hclose, ihrest,
    Option.map_some']
  simp [openMsg, List.append_assoc]
  rw [process_msgs_append registry bstream astream inner (closeMsg :: rest)
    (stack ++ [kw])]
  simp only [ihinner, Option.some_bind]
  have eC : process_msgs registry bstream astream (stack ++ [kw])
      (closeMsg :: rest)
      = some (stack, after_plan registry kw closeMsg astream
          ++ outBody registry bstream astream rest) := by
    simp only [process_msgs, close_step registry bstream astream hclose,
      ihrest, Option.some_bind, Option.map_some']
  simp [eC]

theorem balanced_process (registry : PyStr → Bool) (bstream astream : PyStr)
    {ms : List Msg} (h : Balanced ms) :
    ∀ stack, process_msgs registry bstream astream stack ms
      = some (stack, outBody registry bstream astream ms) := by
  induction h with
  | nil =>
    intro stack
    simp [process_msgs, outBody]
  | plain hm1 hm2 hrest ih =>
    rename_i m rest
    have e1 : ∀ stack, process_msgs registry bstream astream stack (m :: rest)
        = some (stack, [m] ++ outBody registry bstream astream rest) := by
      intro stack
      simp only [process_msgs, plain_step registry bstream astream hm1 hm2, ih,
        Option.some_bind, Option.map_some']
    intro stack
    rw [e1 stack, outBody_of (e1 [])]
  | nest hinner hrest ihinner ihrest =>
    rename_i kw inner rest
    have e1 := process_nest_aux registry bstream astream kw ihinner ihrest
    intro stack
    rw [e1 stack, outBody_of (e1 [])]

end SophysCli

namespace SophysCli

/-- C3.  The run-engine metadata injector is stack-scoped and keyed on
`open_run`/`close_run` pairing: every `open_run` message pushes that
run's kwargs onto the internal stack (`_kwargs_for_runs.append`), every
`close_run` pops the most recently pushed entry (`.pop()`), and on a
strictly nested stream the after-plan device reads inserted at a run's
close use exactly the kwargs of that run's matching `open_run`. -/
theorem metadata_inserter_stack_scoped (registry : PyStr → Bool)
    (bstream astream : PyStr) :
    (∀ (stack : List Kwargs) (m : Msg), m.command = "open_run".data →
      msg_proc_step registry bstream astream stack m
        = some (stack ++ [m.kwargs],
            m :: before_plan registry m.kwargs bstream))
    ∧ (∀ (stack : List Kwargs) (kw : Kwargs) (m : Msg),
        m.command = "close_run".data →
      msg_proc_step registry bstream astream (stack ++ [kw]) m
        = some (stack, after_plan registry kw m astream))
    ∧ (∀ (stack : List Kwargs) (kw : Kwargs) (body : List Msg),
        Balanced body →
      process_msgs registry bstream astream stack
          (openMsg kw :: body ++ [closeMsg])
        = some (stack, (openMsg kw :: before_plan registry kw bstream)
            ++ (outBody registry bstream astream body
              ++ after_plan registry kw closeMsg astream))) := by
  refine ⟨?_, ?_, ?_⟩
  · intro stack m hm
    exact open_step registry bstream astream hm stack
  · intro stack kw m hm
    exact close_step registry bstream astream hm stack kw
  · intro stack kw body hbody
    have h := process_nest_aux registry bstream astream kw
      (balanced_process registry bstream astream hbody)
      (balanced_process registry bstream astream Balanced.nil) stack
    have hnil : outBody registry bstream astream [] = [] := by
      simp [outBody, process_msgs]
    rw [hnil] at h
    simpa using h

/-- Witness for C3's theorem at a concrete nested stream. -/
theorem metadata_inserter_stack_scoped_witness :
    process_msgs (fun s => decide (s = "det".data)) "bs".data "as".data []
        (openMsg [("READ_AFTER".data, "det".data)]
          :: [Msg.mk "set".data none []] ++ [closeMsg])
      = some ([], (openMsg [("READ_AFTER".data, "det".data)]
            :: before_plan (fun s => decide (s = "det".data))
              [("READ_AFTER".data, "det".data)] "bs".data)
          ++ (outBody (fun s => decide (s = "det".data)) "bs".data "as".data
              [Msg.mk "set".data none []]
            ++ after_plan (fun s => decide (s = "det".data))
                [("READ_AFTER".data, "det".data)] closeMsg "as".data)) :=
  (metadata_inserter_stack_scoped (fun s => decide (s = "det".data))
    "bs".data "as".data).2.2 [] _ _
    (Balanced.plain (by decide) (by decide) Balanced.nil)

/-- C7.  Frame property of the metadata injector: a message whose
command is neither `open_run` nor `close_run` passes through unmutated
and leaves the stack alone; an `open_run` whose kwargs hold no
non-empty `READ_BEFORE` entry inserts no before reads; a `close_run`
whose matching kwargs hold no non-empty `READ_AFTER` entry inserts no
after reads. -/
theorem metadata_inserter_frame (registry : PyStr → Bool)
    (bstream astream : PyStr) :
    (∀ (stack : List Kwargs) (m : Msg),
      m.command ≠ "open_run".data → m.command ≠ "close_run".data →
      msg_proc_step registry bstream astream stack m = some (stack, [m]))
    ∧ (∀ (stack : List Kwargs) (m : Msg), m.command = "open_run".data →
      kwget m.kwargs "READ_BEFORE".data = [] →
      msg_proc_step registry bstream astream stack m
        = some (stack ++ [m.kwargs], [m]))
    ∧ (∀ (stack : List Kwargs) (kw : Kwargs) (m : Msg),
        m.command = "close_run".data →
      kwget kw "READ_AFTER".data = [] →
      msg_proc_step registry bstream astream (stack ++ [kw]) m
        = some (stack, [m])) := by
  refine ⟨?_, ?_, ?_⟩
  · intro stack m hm1 hm2
    exact plain_step registry bstream astream hm1 hm2 stack
  · intro stack m hm hrb
    rw [open_step registry bstream astream hm stack]
    unfold before_plan
    rw [hrb]
    simp
  · intro stack kw m hm hra
    rw [close_step registry bstream astream hm stack kw]
    unfold after_plan
    rw [hra]
    simp

/-- Witness for C7's theorem at concrete messages. -/
theorem metadata_inserter_frame_witness :
    msg_proc_step (fun _ => true) "bs".data "as".data []
        (Msg.mk "set".data none []) = some ([], [Msg.mk "set".data none []])
    ∧ msg_proc_step (fun _ => true) "bs".data "as".data [] (openMsg [])
        = some ([[]], [openMsg []])
    ∧ msg_proc_step (fun _ => true) "bs".data "as".data ([] ++ [[]]) closeMsg
        = some ([], [closeMsg]) :=
  ⟨(metadata_inserter_frame (fun _ => true) "bs".data "as".data).1 []
      _ (by decide) (by decide),
    (metadata_inserter_frame (fun _ => true) "bs".data "as".data).2.1 []
      _ rfl (by decide),
    (metadata_inserter_frame (fun _ => true) "bs".data "as".data).2.2 [] []
      _ rfl (by decide)⟩

end SophysCli

namespace SophysCli

/-! ## The plan-submission failure handler (`ema/__init__.py`) -/

/-- The two members of `ExceptionHandlerReturnValue` (from
`sophys.cli.core.magics.plan_magics`) this extension returns. -/
inductive ExceptionHandlerReturnValue where
  | RETRY
  | EXIT_QUIET
  deriving DecidableEq

/-- The only field of `manager.status()` the handler inspects. -/
structure ManagerStatus where
  pause_pending : Bool

/-- Model of `after_plan_request_failed_callback` (__init__.py:552-585):
when the manager reports a pending pause, recreate the server
environment (`HTTPMagics._reload_environment`, the boolean component)
and signal `RETRY`; otherwise exit quietly without recreating
anything. -/
def after_plan_request_failed_callback (status : ManagerStatus) :
    Bool × ExceptionHandlerReturnValue :=
  if status.pause_pending then (true, ExceptionHandlerReturnValue.RETRY)
  else (false, ExceptionHandlerReturnValue.EXIT_QUIET)

/-- Model of the `exception_handlers` table (__init__.py:644): the one
registered handler, keyed by the caught exception type. -/
def exception_handlers :
    List (PyStr × (ManagerStatus → Bool × ExceptionHandlerReturnValue)) :=
  [("RequestFailedError".data, after_plan_request_failed_callback)]

/-- C6.  The only failure-recovery logic is a single handler for
`RequestFailedError`, which recreates the environment and signals a
retry exactly when a pause is pending, and otherwise exits quietly
without recreating anything. -/
theorem request_failed_recovery :
    exception_handlers.map Prod.fst = ["RequestFailedError".data]
    ∧ (∀ st : ManagerStatus,
      ((after_plan_request_failed_callback st).2
          = ExceptionHandlerReturnValue.RETRY ↔ st.pause_pending = true))
    ∧ (∀ st : ManagerStatus,
      ((after_plan_request_failed_callback st).1 = true
        ↔ st.pause_pending = true))
    ∧ (∀ st : ManagerStatus,
      (st.pause_pending = false
        ↔ after_plan_request_failed_callback st
            = (false, ExceptionHandlerReturnValue.EXIT_QUIET))) := by
  refine ⟨rfl, ?_, ?_, ?_⟩ <;>
    (intro st; cases st with
      | mk p => cases p <;> simp [after_plan_request_failed_callback])

/-! ## Plan-target defaulting (`plans.py`) -/

/-- Python truthiness test `not plan_target` for an optional string:
`None` and the empty string are falsy. -/
def py_falsy (o : Option PyStr) : Bool :=
  match o with
  | none => true
  | some s => s.isEmpty

/-- Model of `_AfterBaseScanCLI.get_after_plan_target_argument`
(plans.py:48-52): when no `--plan_target` was parsed, default to the
single selected detector if exactly one is selected; otherwise return
the parsed value unchanged. -/
def get_after_plan_target_argument (plan_target : Option PyStr)
    (detectors : List PyStr) : Option PyStr :=
  if py_falsy plan_target then
    match detectors with
    | [d] => some d
    | _ => plan_target
  else plan_target

/-- C8.  With no `MAIN_DETECTOR` configured, `add_plan_target` defaults
the plan target to the single selected detector exactly when one
detector is selected, and returns the line unchanged when zero or more
than one are selected; `get_after_plan_target_argument` applies the
same single-detector defaulting when no `--plan_target` was parsed. -/
theorem plan_target_defaulting :
    (∀ (line : PyStr) (source : DataSource) (d : PyStr),
      source.main_detector = [] → source.detectors = [d] →
      add_plan_target line source
        = pstrip line ++ " --plan_target ".data ++ pstrip d
          ++ " --md MAIN_COUNTER=".data ++ pstrip d)
    ∧ (∀ (line : PyStr) (source : DataSource),
      source.main_detector = [] → source.detectors.length ≠ 1 →
      add_plan_target line source = line)
    ∧ (∀ (pt : Option PyStr) (d : PyStr), py_falsy pt = true →
      get_after_plan_target_argument pt [d] = some d)
    ∧ (∀ (pt : Option PyStr) (dets : List PyStr), py_falsy pt = true →
      dets.length ≠ 1 → get_after_plan_target_argument pt dets = pt) := by
  refine ⟨?_, ?_, ?_, ?_⟩
  · intro line source d hm hd
    unfold add_plan_target code_target
    rw [hm, hd]
    rfl
  · intro line source hm hlen
    unfold add_plan_target code_target
    rw [hm]
    simp [hlen]
  · intro pt d hpt
    unfold get_after_plan_target_argument
    rw [if_pos hpt]
  · intro pt dets hpt hlen
    unfold get_after_plan_target_argument
    rw [if_pos hpt]
    cases dets with
    | nil => rfl
    | cons d rest =>
      cases rest with
      | nil => exact absurd rfl hlen
      | cons d2 rest2 => rfl

/-- Witness for C8's theorem at concrete inputs. -/
theorem plan_target_defaulting_witness :
    add_plan_target "count 1".data ⟨["d0".data], [], [], [], []⟩
      = pstrip "count 1".data ++ " --plan_target ".data ++ pstrip "d0".data
        ++ " --md MAIN_COUNTER=".data ++ pstrip "d0".data
    ∧ add_plan_target "count 1".data
        ⟨["d0".data, "d1".data], [], [], [], []⟩ = "count 1".data
    ∧ get_after_plan_target_argument none ["d0".data] = some "d0".data
    ∧ get_after_plan_target_argument (some [])
        ["d0".data, "d1".data] = some [] :=
  ⟨plan_target_defaulting.1 _ _ _ rfl rfl,
    plan_target_defaulting.2.1 _ _ rfl (by decide),
    plan_target_defaulting.2.2.1 _ _ (by decide),
    plan_target_defaulting.2.2.2 _ _ (by decide) (by decide)⟩

/-! ## `PlanNDScan._create_plan_arguments` argument splitting
(`plans.py:103-113`, and the identical `_create_plan` at
`__init__.py:126-136`) -/

/-- Python exceptions raised by the modelled code paths. -/
inductive PyErr where
  | assertionError
  | indexError
  | attributeError
  | valueError
  | motorFirst
  | eRangeValues
  | kNoStart
  | kRangeValues
  deriving DecidableEq

/-- Model of the argument-splitting prefix of
`PlanNDScan._create_plan_arguments` (plans.py:106-113): assert that at
least 4 positional args were given or that their count is divisible by
3; when the count is ≡ 1 (mod 3) the args are motors + num and no
exposure time is taken, otherwise the final element is removed and
parsed (`float`, modelled by returning the raw token) as the exposure
time.  `args[-1]` on an empty list is Python's `IndexError`. -/
def create_plan_arguments_split (args : List PyStr) :
    Except PyErr (List PyStr × Option PyStr) :=
  if ¬(args.length ≥ 4 ∨ args.length % 3 = 0) then
    Except.error PyErr.assertionError
  else if args.length % 3 = 1 then Except.ok (args, none)
  else
    match args.getLast? with
    | none => Except.error PyErr.indexError
    | some last => Except.ok (args.dropLast, some last)

/-- C9.  The split raises `AssertionError` exactly when fewer than 4
args are passed and their count is not divisible by 3; every accepted
list keeps all args with no exposure time exactly when the count is
≡ 1 (mod 3), and otherwise extracts the final element as the exposure
time. -/
theorem nd_scan_args_split :
    (∀ args : List PyStr,
      create_plan_arguments_split args = Except.error PyErr.assertionError
        ↔ (args.length < 4 ∧ args.length % 3 ≠ 0))
    ∧ (∀ (args rest : List PyStr) (exp : Option PyStr),
      create_plan_arguments_split args = Except.ok (rest, exp) →
        ((exp.isSome = true ↔ args.length % 3 ≠ 1)
          ∧ exp = (if args.length % 3 = 1 then none else args.getLast?)
          ∧ rest = (if args.length % 3 = 1 then args else args.dropLast))) := by
  constructor
  · intro args
    constructor
    · intro h
      unfold create_plan_arguments_split at h
      by_cases h1 : args.length ≥ 4 ∨ args.length % 3 = 0
      · rw [if_neg (not_not_intro h1)] at h
        by_cases h2 : args.length % 3 = 1
        · rw [if_pos h2] at h
          exact absurd h (by simp)
        · rw [if_neg h2] at h
          cases hl : args.getLast? with
          | none => rw [hl] at h; simp at h
          | some l => rw [hl] at h; simp at h
      · constructor <;> omega
    · intro h
      unfold create_plan_arguments_split
      rw [if_pos (by omega)]
  · intro args rest exp h
    unfold create_plan_arguments_split at h
    by_cases h1 : args.length ≥ 4 ∨ args.length % 3 = 0
    · rw [if_neg (not_not_intro h1)] at h
      by_cases h2 : args.length % 3 = 1
      · rw [if_pos h2] at h
        simp only [Except.ok.injEq, Prod.mk.injEq] at h
        rw [← h.1, ← h.2]
        simp [h2]
      · rw [if_neg h2] at h
        cases hl : args.getLast? with
        | none => rw [hl] at h; simp at h
        | some l =>
          rw [hl] at h
          simp only [Except.ok.injEq, Prod.mk.injEq] at h
          rw [← h.1, ← h.2]
          simp [h2, hl]
    · rw [if_pos h1] at h
      simp at h

/-- Witness for C9's theorem: a 5-element args list (2 mod 3) gives up
its final element as the exposure time. -/
theorem nd_scan_args_split_witness :
    ((some "0.1".data : Option PyStr).isSome = true
      ↔ (["m".data, "1".data, "2".data, "5".data, "0.1".data] : List PyStr).length % 3 ≠ 1)
    ∧ (some "0.1".data : Option PyStr)
        = (if (["m".data, "1".data, "2".data, "5".data, "0.1".data] : List PyStr).length % 3 = 1
          then none
          else (["m".data, "1".data, "2".data, "5".data, "0.1".data] : List PyStr).getLast?)
    ∧ (["m".data, "1".data, "2".data, "5".data] : List PyStr)
        = (if (["m".data, "1".data, "2".data, "5".data, "0.1".data] : List PyStr).length % 3 = 1
          then ["m".data, "1".data, "2".data, "5".data, "0.1".data]
          else (["m".data, "1".data, "2".data, "5".data, "0.1".data] : List PyStr).dropLast) :=
  nd_scan_args_split.2 ["m".data, "1".data, "2".data, "5".data, "0.1".data]
    ["m".data, "1".data, "2".data, "5".data] (some "0.1".data) (by rfl)

end SophysCli

namespace SophysCli

/-! ## `EScanRangeAction` (plans.py:710-754)

Energy / k-space range parsing.  Parsed `float` values are modelled as
rationals; the namespace fields `e`, `k` (initially `None`) and the
lazily-initialised `_current_range_index` form the state. -/

/-- One parsed range: `(range index, start position (can be None),
end position, step)`. -/
abbrev ERange := ℕ × Option ℚ × ℚ × ℚ

/-- The namespace state `EScanRangeAction.__call__` mutates. -/
structure ESState where
  e : Option (List ERange)
  k : Option (List ERange)
  current_range_index : ℕ
  deriving DecidableEq

/-- The namespace before the first `__call__`: `e = k = None`, and
`_current_range_index` initialised to 0. -/
def initESState : ESState := ⟨none, none, 0⟩

/-- Model of `EScanRangeAction.__call__` (plans.py:725-754): `-e` takes
exactly 3 values; `-k` takes 3 values, or 2 values with a `None` start
provided some range was specified before (current range index not 0);
each accepted range is appended with the current range index, which is
then incremented (also for unmatched option strings). -/
def escan_range_step (st : ESState) (option_string : PyStr)
    (values : List ℚ) : Except PyErr ESState :=
  if option_string = "-e".data then
    match values with
    | [a, b, c] =>
      Except.ok { st with
        e := some (st.e.getD [] ++ [(st.current_range_index, some a, b, c)]),
        current_range_index := st.current_range_index + 1 }
    | _ => Except.error PyErr.eRangeValues
  else if option_string = "-k".data then
    match values with
    | [a, b] =>
      if st.current_range_index = 0 then Except.error PyErr.kNoStart
      else Except.ok { st with
        k := some (st.k.getD [] ++ [(st.current_range_index, none, a, b)]),
        current_range_index := st.current_range_index + 1 }
    | [a, b, c] =>
      Except.ok { st with
        k := some (st.k.getD [] ++ [(st.current_range_index, some a, b, c)]),
        current_range_index := st.current_range_index + 1 }
    | _ => Except.error PyErr.kRangeValues
  else Except.ok { st with current_range_index := st.current_range_index + 1 }

/-- A sequence of argparse invocations of the action. -/
def escan_range_run (st : ESState) :
    List (PyStr × List ℚ) → Except PyErr ESState
  | [] => Except.ok st
  | ev :: evs =>
    match escan_range_step st ev.1 ev.2 with
    | Except.error e => Except.error e
    | Except.ok st2 => escan_range_run st2 evs

/-- The range index of a parsed range tuple. -/
def rangeIdx (r : ERange) : ℕ := r.1

/-- Invariant: recorded indices strictly increase within each of `e`
and `k`, and all are below the current range index. -/
def ESInv (st : ESState) : Prop :=
  List.Pairwise (· < ·) ((st.e.getD []).map rangeIdx)
  ∧ List.Pairwise (· < ·) ((st.k.getD []).map rangeIdx)
  ∧ (∀ i ∈ (st.e.getD []).map rangeIdx, i < st.current_range_index)
  ∧ (∀ i ∈ (st.k.getD []).map rangeIdx, i < st.current_range_index)

theorem inv_push (l : List ERange) (n : ℕ) (x : Option ℚ × ℚ × ℚ)
    (hp : List.Pairwise (· < ·) (l.map rangeIdx))
    (hb : ∀ i ∈ l.map rangeIdx, i < n) :
    List.Pairwise (· < ·) ((l ++ [(n, x)]).map rangeIdx)
    ∧ (∀ i ∈ (l ++ [(n, x)]).map rangeIdx, i < n + 1) := by
  constructor
  · rw [List.map_append]
    refine List.pairwise_append.mpr ⟨hp, by simp, ?_⟩
    intro a ha b hb'
    simp [rangeIdx] at hb'
    subst hb'
    exact hb a ha
  · intro i hi
    rw [List.map_append] at hi
    rcases List.mem_append.mp hi with hi | hi
    · exact Nat.lt_succ_of_lt (hb i hi)
    · simp [rangeIdx] at hi
      omega

theorem escan_step_inv {st st' : ESState} {opt : PyStr} {vs : List ℚ}
    (hinv : ESInv st) (h : escan_range_step st opt vs = Except.ok st') :
    ESInv st' := by
  obtain ⟨p1, p2, b1, b2⟩ := hinv
  unfold escan_range_step at h
  by_cases hopt : opt = "-e".data
  · rw [if_pos hopt] at h
    rcases vs with _ | ⟨a, _ | ⟨b, _ | ⟨c, _ | ⟨d, t⟩⟩⟩⟩
    · cases h
    · cases h
    · cases h
    · cases h
      have hp := inv_push (st.e.getD []) st.current_range_index (some a, b, c) p1 b1
      refine ⟨by simpa using hp.1, p2, by simpa using hp.2, ?_⟩
      intro i hi
      exact Nat.lt_succ_of_lt (b2 i hi)
    · cases h
  · rw [if_neg hopt] at h
    by_cases hopt2 : opt = "-k".data
    · rw [if_pos hopt2] at h
      rcases vs with _ | ⟨a, _ | ⟨b, _ | ⟨c, _ | ⟨d, t⟩⟩⟩⟩
      · cases h
      · cases h
      · replace h : (if st.current_range_index = 0
            then Except.error PyErr.kNoStart
            else Except.ok { st with
              k := some (st.k.getD []
                ++ [(st.current_range_index, none, a, b)]),
              current_range_index := st.current_range_index + 1 })
            = Except.ok st' := h
        by_cases hidx : st.current_range_index = 0
        · rw [if_pos hidx] at h
          cases h
        · rw [if_neg hidx] at h
          cases h
          have hp := inv_push (st.k.getD []) st.current_range_index (none, a, b) p2 b2
          refine ⟨p1, by simpa using hp.1, ?_, by simpa using hp.2⟩
          intro i hi
          exact Nat.lt_succ_of_lt (b1 i hi)
      · cases h
        have hp := inv_push (st.k.getD []) st.current_range_index (some a, b, c) p2 b2
        refine ⟨p1, by simpa using hp.1, ?_, by simpa using hp.2⟩
        intro i hi
        exact Nat.lt_succ_of_lt (b1 i hi)
      · cases h
    · rw [if_neg hopt2] at h
      cases h
      refine ⟨p1, p2, ?_, ?_⟩
      · intro i hi
        exact Nat.lt_succ_of_lt (b1 i hi)
      · intro i hi
        exact Nat.lt_succ_of_lt (b2 i hi)

theorem escan_run_inv : ∀ (events : List (PyStr × List ℚ)) {st st' : ESState},
    ESInv st → escan_range_run st events = Except.ok st' → ESInv st'
  | [], st, st', hinv, h => by
    cases h
    exact hinv
  | ev :: evs, st, st', hinv, h => by
    unfold escan_range_run at h
    cases hstep : escan_range_step st ev.1 ev.2 with
    | error e =>
      rw [hstep] at h
      simp at h
    | ok st2 =>
      rw [hstep] at h
      exact escan_run_inv evs (escan_step_inv hinv hstep) h

/-- C10.  `EScanRangeAction` rejects every `-e` with a value count
other than 3; rejects `-k` with 2 values when no range was specified
before (current range index 0) and with any count other than 2 or 3; a
2-value `-k` is recorded with `None` as its start position; and over
any successful sequence of invocations from the initial namespace, the
recorded range indices strictly increase with input order within `e`
and within `k`. -/
theorem escan_range_action_spec :
    (∀ (st : ESState) (values : List ℚ), values.length ≠ 3 →
      escan_range_step st "-e".data values = Except.error PyErr.eRangeValues)
    ∧ (∀ (st : ESState) (a b : ℚ), st.current_range_index = 0 →
      escan_range_step st "-k".data [a, b] = Except.error PyErr.kNoStart)
    ∧ (∀ (st : ESState) (values : List ℚ), values.length ≠ 2 →
      values.length ≠ 3 →
      escan_range_step st "-k".data values = Except.error PyErr.kRangeValues)
    ∧ (∀ (st : ESState) (a b : ℚ), st.current_range_index ≠ 0 →
      escan_range_step st "-k".data [a, b]
        = Except.ok { st with
            k := some (st.k.getD []
              ++ [(st.current_range_index, none, a, b)]),
            current_range_index := st.current_range_index + 1 })
    ∧ (∀ (events : List (PyStr × List ℚ)) (st' : ESState),
      escan_range_run initESState events = Except.ok st' →
        List.Pairwise (· < ·) ((st'.e.getD []).map rangeIdx)
        ∧ List.Pairwise (· < ·) ((st'.k.getD []).map rangeIdx)) := by
  refine ⟨?_, ?_, ?_, ?_, ?_⟩
  · intro st values hlen
    unfold escan_range_step
    rw [if_pos rfl]
    rcases values with _ | ⟨a, _ | ⟨b, _ | ⟨c, _ | ⟨d, t⟩⟩⟩⟩
    · rfl
    · rfl
    · rfl
    · exact absurd rfl hlen
    · rfl
  · intro st a b hidx
    unfold escan_range_step
    rw [if_neg (by decide), if_pos rfl]
    simp [hidx]
  · intro st values hlen2 hlen3
    unfold escan_range_step
    rw [if_neg (by decide), if_pos rfl]
    rcases values with _ | ⟨a, _ | ⟨b, _ | ⟨c, _ | ⟨d, t⟩⟩⟩⟩
    · rfl
    · rfl
    · exact absurd rfl hlen2
    · exact absurd rfl hlen3
    · rfl
  · intro st a b hidx
    unfold escan_range_step
    rw [if_neg (by decide), if_pos rfl]
    simp [hidx]
  · intro events st' h
    have hinit : ESInv initESState := by
      refine ⟨?_, ?_, ?_, ?_⟩ <;> simp [initESState]
    have := escan_run_inv events hinit h
    exact ⟨this.1, this.2.1⟩

/-- Witness for C10's theorem at concrete invocations. -/
theorem escan_range_action_spec_witness :
    escan_range_step initESState "-e".data [1, 2]
        = Except.error PyErr.eRangeValues
    ∧ escan_range_step initESState "-k".data [4, 5]
        = Except.error PyErr.kNoStart
    ∧ escan_range_step initESState "-k".data [1, 2, 3, 4]
        = Except.error PyErr.kRangeValues
    ∧ escan_range_step ⟨none, none, 1⟩ "-k".data [4, 5]
        = Except.ok ⟨none, some [(1, none, 4, 5)], 2⟩
    ∧ (List.Pairwise (· < ·)
        (((⟨some [(0, some 1, 2, 3)], some [(1, none, 4, 5)], 2⟩ : ESState).e.getD []).map rangeIdx)
      ∧ List.Pairwise (· < ·)
        (((⟨some [(0, some 1, 2, 3)], some [(1, none, 4, 5)], 2⟩ : ESState).k.getD []).map rangeIdx)) :=
  ⟨escan_range_action_spec.1 initESState [1, 2] (by decide),
    escan_range_action_spec.2.1 initESState 4 5 rfl,
    escan_range_action_spec.2.2.1 initESState [1, 2, 3, 4] (by decide) (by decide),
    (escan_range_action_spec.2.2.2.1 ⟨none, none, 1⟩ 4 5 (by decide)).trans (by rfl),
    escan_range_action_spec.2.2.2.2
      [("-e".data, [1, 2, 3]), ("-k".data, [4, 5])]
      ⟨some [(0, some 1, 2, 3)], some [(1, none, 4, 5)], 2⟩ (by rfl)⟩

end SophysCli

namespace SophysCli

/-! ## `PlanNDListScan.RangeAction` (plans.py:136-209)

The custom argparse action grouping list-scan positional arguments.
Python's `float(value)` and the `eval` of a reassembled bracketed list
are external builtins, taken as parameters `pf : PyStr → Option ℚ`
(`none` = `ValueError`) and `evalL : PyStr → Option (List ℚ)` (the
composition `[float(x) for x in eval(s)]`, `none` = any exception).
`motor_positions` is an insertion-ordered `defaultdict(list)` whose
keys may be `None` (the initial `current_positioner`). -/

/-- Insertion-ordered `defaultdict(list)` access
`motor_positions[k].extend(xs)`: extend the existing entry, or append a
new (possibly empty) one at the end. -/
def extendAt (m : List (Option PyStr × List ℚ)) (k : Option PyStr)
    (xs : List ℚ) : List (Option PyStr × List ℚ) :=
  match m with
  | [] => [(k, xs)]
  | (k2, ys) :: rest =>
    if k2 = k then (k2, ys ++ xs) :: rest
    else (k2, ys) :: extendAt rest k xs

/-- Python `value.startswith(('[', '('))`. -/
def startsBracket (v : PyStr) : Bool :=
  match v with
  | c :: _ => c = '[' || c = '('
  | [] => false

/-- Python `value.endswith((']', ')'))`. -/
def endsBracket (v : PyStr) : Bool :=
  match v.getLast? with
  | some c => c = ']' || c = ')'
  | none => false

/-- The state mutated by `RangeAction.__call__` across the `values`
loop (plans.py:180-205): the grouped positions, the current positioner,
and the partial bracketed list being reassembled. -/
structure RAState where
  motor_positions : List (Option PyStr × List ℚ)
  current_positioner : Option PyStr
  current_partial_list : Option (List PyStr)
  deriving DecidableEq

/-- The state at the start of `__call__`. -/
def initRAState : RAState := ⟨[], none, none⟩

/-- Model of `RangeAction.maybe_fill_partial_list` (plans.py:148-178):
returns the new partial list, whether the value was part of a list, and
the fully parsed positions when the last item was retrieved.  A closing
token with no open partial list is Python's `None.append`
`AttributeError`; a failing `eval`/`float` is a `ValueError`. -/
def maybe_fill_partial_list (evalL : PyStr → Option (List ℚ))
    (cpl : Option (List PyStr)) (value : PyStr) :
    Except PyErr (Option (List PyStr) × Bool × Option (List ℚ)) :=
  if startsBracket value then Except.ok (some [value], true, none)
  else if endsBracket value then
    match cpl with
    | none => Except.error PyErr.attributeError
    | some l =>
      match evalL (List.flatten (l ++ [value])) with
      | none => Except.error PyErr.valueError
      | some xs => Except.ok (none, true, some xs)
  else
    match cpl with
    | some l => Except.ok (some (l ++ [value]), true, none)
    | none => Except.ok (none, false, none)

/-- Model of one iteration of the loop in `RangeAction.__call__`
(plans.py:185-205): a float-parsing value is appended to the current
positioner's positions (raising when no positioner was named yet);
otherwise the value either takes part in a bracketed list or names the
new positioner. -/
def range_action_step (pf : PyStr → Option ℚ)
    (evalL : PyStr → Option (List ℚ)) (st : RAState) (value : PyStr) :
    Except PyErr RAState :=
  match pf value with
  | some x =>
    match st.current_positioner with
    | none => Except.error PyErr.motorFirst
    | some _ => Except.ok { st with
        motor_positions := extendAt st.motor_positions st.current_positioner [x] }
  | none =>
    match maybe_fill_partial_list evalL st.current_partial_list value with
    | Except.error e => Except.error e
    | Except.ok (cpl2, filling, full) =>
      if filling then
        match full with
        | some xs => Except.ok { st with
            current_partial_list := cpl2,
            motor_positions := extendAt st.motor_positions st.current_positioner xs }
        | none => Except.ok { st with current_partial_list := cpl2 }
      else Except.ok { st with current_positioner := some value }

/-- The loop of `RangeAction.__call__` over all values. -/
def range_action_run (pf : PyStr → Option ℚ)
    (evalL : PyStr → Option (List ℚ)) (st : RAState) :
    List PyStr → Except PyErr RAState
  | [] => Except.ok st
  | v :: vs =>
    match range_action_step pf evalL st v with
    | Except.error e => Except.error e
    | Except.ok st2 => range_action_run pf evalL st2 vs

/-- Model of `RangeAction.__call__` (plans.py:180-209): run the loop
from the initial state and populate `namespace.args` with, for each
entry of `motor_positions` in insertion order, the positioner followed
by the tuple of its positions (kept here as the pair list itself). -/
def range_action_call (pf : PyStr → Option ℚ)
    (evalL : PyStr → Option (List ℚ)) (values : List PyStr) :
    Except PyErr (List (Option PyStr × List ℚ)) :=
  match range_action_run pf evalL initRAState values with
  | Except.error e => Except.error e
  | Except.ok st => Except.ok st.motor_positions

/-! ### The claim's description of the grouping

`specScanAux`/`specParse` parse, from the claim's words, a value list
made of motor mnemonics interleaved with numeric positions and
bracketed literal lists (each motor having at least one position item),
into the per-motor segments in stream order; `segsFold` then groups the
segments by first appearance. -/

/-- Declarative scan of the items following a motor name.  `mode` is
`some partAcc` inside a bracketed list.  Returns whether the current
motor got at least one item, its positions, and the later segments. -/
def specScanAux (pf : PyStr → Option ℚ) (evalL : PyStr → Option (List ℚ)) :
    Option (List PyStr) → List PyStr →
    Option (Bool × List ℚ × List (PyStr × List ℚ))
  | none, [] => some (false, [], [])
  | some _, [] => none
  | none, v :: vs =>
    match pf v with
    | some x =>
      (specScanAux pf evalL none vs).map (fun r => (true, x :: r.2.1, r.2.2))
    | none =>
      if startsBracket v then specScanAux pf evalL (some [v]) vs
      else if endsBracket v then none
      else
        match specScanAux pf evalL none vs with
        | some (hi, ps, rest) =>
          if hi then some (false, [], (v, ps) :: rest) else none
        | none => none
  | some partAcc, v :: vs =>
    match pf v with
    | some _ => none
    | none =>
      if startsBracket v then none
      else if endsBracket v then
        match evalL (List.flatten (partAcc ++ [v])) with
        | some xs =>
          (specScanAux pf evalL none vs).map (fun r => (true, xs ++ r.2.1, r.2.2))
        | none => none
      else specScanAux pf evalL (some (partAcc ++ [v])) vs

/-- Parse a well-formed value list into its motor segments, written
from the claim's words: a motor mnemonic, then its positions (numeric
values and bracketed literal lists), and so on. -/
def specParse (pf : PyStr → Option ℚ) (evalL : PyStr → Option (List ℚ)) :
    List PyStr → Option (List (PyStr × List ℚ))
  | [] => some []
  | v :: vs =>
    match pf v with
    | some _ => none
    | none =>
      if startsBracket v || endsBracket v then none
      else
        match specScanAux pf evalL none vs with
        | some (hi, ps, rest) => if hi then some ((v, ps) :: rest) else none
        | none => none

/-- Group the segments by first appearance of each motor, in order:
the claim's "for each motor in order of first appearance, the motor
name followed by the tuple of all of that motor's positions". -/
def segsFold (m : List (Option PyStr × List ℚ))
    (segs : List (PyStr × List ℚ)) : List (Option PyStr × List ℚ) :=
  segs.foldl (fun acc p => extendAt acc (some p.1) p.2) m

theorem extendAt_extendAt (k : Option PyStr) (xs ys : List ℚ) :
    ∀ m : List (Option PyStr × List ℚ),
      extendAt (extendAt m k xs) k ys = extendAt m k (xs ++ ys)
  | [] => by
    simp [extendAt]
  | (k2, zs) :: rest => by
    by_cases hk : k2 = k
    · simp [extendAt, hk, List.append_assoc]
    · simp [extendAt, hk, extendAt_extendAt k xs ys rest]

end SophysCli

namespace SophysCli

theorem ra_step_num (pf : PyStr → Option ℚ) (el : PyStr → Option (List ℚ))
    {v : PyStr} {x : ℚ} (hpf : pf v = some x)
    (m : List (Option PyStr × List ℚ)) (cur : PyStr)
    (cpl : Option (List PyStr)) :
    range_action_step pf el ⟨m, some cur, cpl⟩ v
      = Except.ok ⟨extendAt m (some cur) [x], some cur, cpl⟩ := by
  simp [range_action_step, hpf]

theorem ra_step_num_none (pf : PyStr → Option ℚ)
    (el : PyStr → Option (List ℚ)) {v : PyStr} {x : ℚ} (hpf : pf v = some x)
    (m : List (Option PyStr × List ℚ)) (cpl : Option (List PyStr)) :
    range_action_step pf el ⟨m, none, cpl⟩ v
      = Except.error PyErr.motorFirst := by
  simp [range_action_step, hpf]

theorem ra_step_open (pf : PyStr → Option ℚ) (el : PyStr → Option (List ℚ))
    {v : PyStr} (hpf : pf v = none) (hs : startsBracket v = true)
    (m : List (Option PyStr × List ℚ)) (pos : Option PyStr)
    (cpl : Option (List PyStr)) :
    range_action_step pf el ⟨m, pos, cpl⟩ v
      = Except.ok ⟨m, pos, some [v]⟩ := by
  simp [range_action_step, maybe_fill_partial_list, hpf, hs]

theorem ra_step_name (pf : PyStr → Option ℚ) (el : PyStr → Option (List ℚ))
    {v : PyStr} (hpf : pf v = none) (hs : startsBracket v = false)
    (he : endsBracket v = false) (m : List (Option PyStr × List ℚ))
    (pos : Option PyStr) :
    range_action_step pf el ⟨m, pos, none⟩ v
      = Except.ok ⟨m, some v, none⟩ := by
  simp [range_action_step, maybe_fill_partial_list, hpf, hs, he]

theorem ra_step_close (pf : PyStr → Option ℚ) (el : PyStr → Option (List ℚ))
    {v : PyStr} (hpf : pf v = none) (hs : startsBracket v = false)
    (he : endsBracket v = true) {partAcc : List PyStr} {xs : List ℚ}
    (hev : el (List.flatten (partAcc ++ [v])) = some xs)
    (m : List (Option PyStr × List ℚ)) (pos : Option PyStr) :
    range_action_step pf el ⟨m, pos, some partAcc⟩ v
      = Except.ok ⟨extendAt m pos xs, pos, none⟩ := by
  have hev2 : el (List.flatten partAcc ++ v) = some xs := by
    simpa using hev
  simp [range_action_step, maybe_fill_partial_list, hpf, hs, he, hev2]

theorem ra_step_mid (pf : PyStr → Option ℚ) (el : PyStr → Option (List ℚ))
    {v : PyStr} (hpf : pf v = none) (hs : startsBracket v = false)
    (he : endsBracket v = false) (m : List (Option PyStr × List ℚ))
    (pos : Option PyStr) (partAcc : List PyStr) :
    range_action_step pf el ⟨m, pos, some partAcc⟩ v
      = Except.ok ⟨m, pos, some (partAcc ++ [v])⟩ := by
  simp [range_action_step, maybe_fill_partial_list, hpf, hs, he]

/-- Soundness of the declarative parse against the stateful loop: on a
well-formed item stream, the loop from a named positioner computes the
fold of the parsed segments, and a segment with no items leaves the
positions untouched. -/
theorem specScanAux_run (pf : PyStr → Option ℚ)
    (el : PyStr → Option (List ℚ)) :
    ∀ (vs : List PyStr) (mode : Option (List PyStr))
      (tr : Bool × List ℚ × List (PyStr × List ℚ)),
      specScanAux pf el mode vs = some tr →
      ((tr.1 = false → tr.2.1 = []) ∧
        ∀ (m : List (Option PyStr × List ℚ)) (cur : PyStr),
          ∃ p2, range_action_run pf el ⟨m, some cur, mode⟩ vs
            = Except.ok ⟨segsFold
                (if tr.1 then extendAt m (some cur) tr.2.1 else m) tr.2.2,
                p2, none⟩)
  | [], none, tr, h => by
    unfold specScanAux at h
    injection h with h2
    subst h2
    exact ⟨fun _ => rfl, fun m cur => ⟨some cur, rfl⟩⟩
  | [], some partAcc, tr, h => by
    unfold specScanAux at h
    exact Option.noConfusion h
  | v :: vs, none, tr, h => by
    unfold specScanAux at h
    cases hpf : pf v with
    | some x =>
      simp only [hpf] at h
      cases hs2 : specScanAux pf el none vs with
      | none => simp [hs2] at h
      | some r =>
        obtain ⟨hi2, ps2, rest2⟩ := r
        simp only [hs2, Option.map_some'] at h
        injection h with h2
        subst h2
        have ih := specScanAux_run pf el vs none (hi2, ps2, rest2) hs2
        refine ⟨fun hc => absurd hc (by simp), ?_⟩
        intro m cur
        obtain ⟨p2, hrun⟩ := ih.2 (extendAt m (some cur) [x]) cur
        have hrun2 : range_action_run pf el
              ⟨extendAt m (some cur) [x], some cur, none⟩ vs
            = Except.ok ⟨segsFold (if hi2 = true
                then extendAt (extendAt m (some cur) [x]) (some cur) ps2
                else extendAt m (some cur) [x]) rest2, p2, none⟩ := hrun
        have hfold : (if hi2 = true
              then extendAt (extendAt m (some cur) [x]) (some cur) ps2
              else extendAt m (some cur) [x])
            = extendAt m (some cur) (x :: ps2) := by
          cases hhi : hi2 with
          | true =>
            rw [if_pos rfl, extendAt_extendAt, List.singleton_append]
          | false =>
            have hps : ps2 = [] := ih.1 hhi
            rw [if_neg (by simp), hps]
        rw [hfold] at hrun2
        refine ⟨p2, ?_⟩
        unfold range_action_run
        rw [ra_step_num pf el hpf m cur none]
        exact hrun2
    | none =>
      simp only [hpf] at h
      cases hs : startsBracket v with
      | true =>
        simp only [hs, if_pos rfl] at h
        have ih := specScanAux_run pf el vs (some [v]) tr h
        refine ⟨ih.1, ?_⟩
        intro m cur
        obtain ⟨p2, hrun⟩ := ih.2 m cur
        refine ⟨p2, ?_⟩
        unfold range_action_run
        rw [ra_step_open pf el hpf hs m (some cur) none]
        exact hrun
      | false =>
        simp only [hs] at h
        rw [if_neg (by simp)] at h
        cases he : endsBracket v with
        | true => simp [he] at h
        | false =>
          simp only [he] at h
          rw [if_neg (by simp)] at h
          cases hs2 : specScanAux pf el none vs with
          | none => simp [hs2] at h
          | some r =>
            obtain ⟨hi2, ps2, rest2⟩ := r
            simp only [hs2] at h
            cases hhi : hi2 with
            | false => simp [hhi] at h
            | true =>
              rw [hhi] at h
              rw [if_pos rfl] at h
              injection h with h2
              subst h2
              have ih := specScanAux_run pf el vs none (true, ps2, rest2)
                (by rw [← hhi]; exact hs2)
              refine ⟨fun _ => rfl, ?_⟩
              intro m cur
              obtain ⟨p2, hrun⟩ := ih.2 m v
              refine ⟨p2, ?_⟩
              unfold range_action_run
              rw [ra_step_name pf el hpf hs he m (some cur)]
              exact hrun
  | v :: vs, some partAcc, tr, h => by
    unfold specScanAux at h
    cases hpf : pf v with
    | some x => simp [hpf] at h
    | none =>
      simp only [hpf] at h
      cases hs : startsBracket v with
      | true => simp [hs] at h
      | false =>
        simp only [hs] at h
        rw [if_neg (by simp)] at h
        cases he : endsBracket v with
        | false =>
          simp only [he] at h
          rw [if_neg (by simp)] at h
          have ih := specScanAux_run pf el vs (some (partAcc ++ [v])) tr h
          refine ⟨ih.1, ?_⟩
          intro m cur
          obtain ⟨p2, hrun⟩ := ih.2 m cur
          refine ⟨p2, ?_⟩
          unfold range_action_run
          rw [ra_step_mid pf el hpf hs he m (some cur) partAcc]
          exact hrun
        | true =>
          simp only [he, if_pos rfl] at h
          cases hev : el (List.flatten (partAcc ++ [v])) with
          | none =>
            rw [hev] at h
            exact Option.noConfusion h
          | some xs =>
            rw [hev] at h
            cases hs2 : specScanAux pf el none vs with
            | none => simp [hs2] at h
            | some r =>
              obtain ⟨hi2, ps2, rest2⟩ := r
              simp only [hs2, Option.map_some'] at h
              injection h with h2
              subst h2
              have ih := specScanAux_run pf el vs none (hi2, ps2, rest2) hs2
              refine ⟨fun hc => absurd hc (by simp), ?_⟩
              intro m cur
              obtain ⟨p2, hrun⟩ := ih.2 (extendAt m (some cur) xs) cur
              have hrun2 : range_action_run pf el
                    ⟨extendAt m (some cur) xs, some cur, none⟩ vs
                  = Except.ok ⟨segsFold (if hi2 = true
                      then extendAt (extendAt m (some cur) xs) (some cur) ps2
                      else extendAt m (some cur) xs) rest2, p2, none⟩ := hrun
              have hfold : (if hi2 = true
                    then extendAt (extendAt m (some cur) xs) (some cur) ps2
                    else extendAt m (some cur) xs)
                  = extendAt m (some cur) (xs ++ ps2) := by
                cases hhi : hi2 with
                | true => rw [if_pos rfl, extendAt_extendAt]
                | false =>
                  have hps : ps2 = [] := ih.1 hhi
                  rw [if_neg (by simp), hps, List.append_nil]
              rw [hfold] at hrun2
              refine ⟨p2, ?_⟩
              unfold range_action_run
              rw [ra_step_close pf el hpf hs he hev m (some cur)]
              exact hrun2

end SophysCli

namespace SophysCli

theorem range_action_run_append (pf : PyStr → Option ℚ)
    (el : PyStr → Option (List ℚ)) :
    ∀ (a b : List PyStr) (st : RAState),
      range_action_run pf el st (a ++ b)
        = match range_action_run pf el st a with
          | Except.error e => Except.error e
          | Except.ok st2 => range_action_run pf el st2 b
  | [], b, st => rfl
  | v :: a, b, st => by
    show range_action_run pf el st (v :: (a ++ b)) = _
    cases hstep : range_action_step pf el st v with
    | error e => simp [range_action_run, hstep]
    | ok st2 =>
      simp [range_action_run, hstep,
        range_action_run_append pf el a b st2]

/-- C5.  With `float` parsing and bracketed-list `eval` as parameters
(`pf`, `evalL`), `RangeAction.__call__` populates `namespace.args`
with, for each motor in order of first appearance, the motor name
paired with all of that motor's positions in stream order (`segsFold`
of the parsed segments), for every well-formed positional list of
motor mnemonics interleaved with numeric positions and bracketed
literal lists (`specParse`); and a numeric position occurring before
any motor name has been set raises an exception. -/
theorem range_action_grouping (pf : PyStr → Option ℚ)
    (evalL : PyStr → Option (List ℚ)) :
    (∀ (values : List PyStr) (segs : List (PyStr × List ℚ)),
      specParse pf evalL values = some segs →
      range_action_call pf evalL values = Except.ok (segsFold [] segs))
    ∧ (∀ (pre : List PyStr) (v : PyStr) (rest : List PyStr)
        (st2 : RAState) (x : ℚ),
      range_action_run pf evalL initRAState pre = Except.ok st2 →
      st2.current_positioner = none →
      pf v = some x →
      range_action_call pf evalL (pre ++ v :: rest)
        = Except.error PyErr.motorFirst) := by
  constructor
  · intro values segs h
    unfold specParse at h
    cases values with
    | nil =>
      injection h with h2
      subst h2
      rfl
    | cons v vs =>
      cases hpf : pf v with
      | some x => simp [hpf] at h
      | none =>
        simp only [hpf] at h
        cases hsb : (startsBracket v || endsBracket v) with
        | true => simp [hsb] at h
        | false =>
          obtain ⟨hsb1, heb1⟩ := Bool.or_eq_false_iff.mp hsb
          simp only [hsb] at h
          rw [if_neg (by simp)] at h
          cases hs2 : specScanAux pf evalL none vs with
          | none => simp [hs2] at h
          | some r =>
            obtain ⟨hi2, ps2, rest2⟩ := r
            simp only [hs2] at h
            cases hhi : hi2 with
            | false => simp [hhi] at h
            | true =>
              rw [hhi] at h
              rw [if_pos rfl] at h
              injection h with h2
              subst h2
              have ih := specScanAux_run pf evalL vs none (true, ps2, rest2)
                (by rw [← hhi]; exact hs2)
              obtain ⟨p2, hrun⟩ := ih.2 [] v
              have hstep : range_action_step pf evalL initRAState v
                  = Except.ok ⟨[], some v, none⟩ := by
                simpa [initRAState] using
                  ra_step_name pf evalL hpf hsb1 heb1 [] none
              have hrunall : range_action_run pf evalL initRAState (v :: vs)
                  = Except.ok ⟨segsFold (extendAt [] (some v) ps2) rest2,
                      p2, none⟩ := by
                unfold range_action_run
                rw [hstep]
                exact hrun
              unfold range_action_call
              rw [hrunall]
              rfl
  · intro pre v rest st2 x h1 h2 hpf
    obtain ⟨mp, cp, cpl⟩ := st2
    have h2x : cp = none := h2
    subst h2x
    have hrun : range_action_run pf evalL initRAState (pre ++ v :: rest)
        = Except.error PyErr.motorFirst := by
      rw [range_action_run_append pf evalL pre (v :: rest) initRAState, h1]
      show range_action_run pf evalL ⟨mp, none, cpl⟩ (v :: rest)
        = Except.error PyErr.motorFirst
      unfold range_action_run
      rw [ra_step_num_none pf evalL hpf mp cpl]
    unfold range_action_call
    rw [hrun]

/-- Sample `float(value)` parser used by the witness. -/
def pfSample : PyStr → Option ℚ :=
  fun s => if s = "1".data then some 1
    else if s = "3".data then some 3 else none

/-- Sample `[float(x) for x in eval(s)]` used by the witness. -/
def elSample : PyStr → Option (List ℚ) :=
  fun s => if s = "[1,2]".data then some [1, 2] else none

/-- Witness for C5's theorem: `m1 [1, 2] 3` groups into
`m1 ↦ (1.0, 2.0, 3.0)`, and a leading numeric value raises. -/
theorem range_action_grouping_witness :
    range_action_call pfSample elSample
        ["m1".data, "[1,".data, "2]".data, "3".data]
      = Except.ok [(some "m1".data, [1, 2, 3])]
    ∧ range_action_call pfSample elSample ["3".data]
      = Except.error PyErr.motorFirst :=
  ⟨((range_action_grouping pfSample elSample).1
      ["m1".data, "[1,".data, "2]".data, "3".data]
      [("m1".data, [1, 2, 3])] (by decide)).trans (by rfl),
    (range_action_grouping pfSample elSample).2 [] "3".data [] initRAState 3
      rfl rfl (by decide)⟩

end SophysCli
